import Mathlib

/-!
Verification development for the fantacalcio score-history tracker
(`main.py`).  The core under study is the ledger reconciliation
function `update_storico` together with its helpers
(`normalize_name`, `parse_italian_number`, `collect_current_scores`,
`compute_prev_giornata_date`) and the two derived views
(`build_punteggi_giornata`, `build_ultima_classifica`).

Shallow-embedding conventions:
* Python `float` scores are modelled as exact rationals (`ℚ`);
* timestamps (`datetime`) are modelled as natural numbers ordered by `≤`;
* a pandas `DataFrame` holding the ledger is modelled as a `List Entry`
  in row order; `pd.concat([a, b], ignore_index=True)` is `a ++ b`;
* a Python `dict` (insertion ordered) is modelled as an association
  list whose keys are pairwise distinct;
* multi-key `df.sort_values([...])` calls are modelled as a stable sort
  (`List.insertionSort`) by the lexicographic key: pandas sorts several
  keys with a stable lexsort, descending keys handled by inverting the
  codes, which preserves the original order of full ties;
* the single-key descending sort of line 309 is modelled as a stable
  ascending sort followed by a reversal: pandas (`nargsort`) computes
  the ascending argsort of the column — numpy's default kind runs the
  stable insertion sort on small arrays — and reverses the indexer for
  `ascending=False`, so equal keys come out in reversed order.
-/

namespace Fantacalcio

/-! ## Data model -/

/-- One raw observation scraped from a ranking table: the team's display
name (`Squadra`) and its already-parsed score (`Punti`).  The unused
`posizione`/`url` fields of the Python dict are omitted. -/
structure Obs where
  squadra : String
  punti : ℚ
deriving DecidableEq

/-- The value stored per normalized key in `collect_current_scores`:
`{"Squadra": ..., "Punti": ...}`. -/
structure TS where
  squadra : String
  punti : ℚ
deriving DecidableEq

/-- One row of the `Storico` ledger: columns `giornata`,
`data_download`, `Squadra`, `squadra_norm`, `punteggio_totale`. -/
structure Entry where
  giornata : ℕ
  data_download : ℕ
  squadra : String
  squadra_norm : String
  punteggio_totale : ℚ
deriving DecidableEq

/-- The `stats` dictionary returned by `update_storico`. -/
structure Stats where
  added_changed : ℕ
  added_new_prev : ℕ
  skipped_unchanged : ℕ
  no_change : ℕ
deriving DecidableEq

/-- One row of the `Ultima classifica` sheet produced by
`build_ultima_classifica`. -/
structure ClasRow where
  posizione : ℕ
  squadra : String
  punteggio_totale : ℚ
  giornata : ℕ
  data_download : ℕ
deriving DecidableEq

/-- One row of the `Punteggi giornata` sheet produced by
`build_punteggi_giornata`. -/
structure GRow where
  giornata : ℕ
  data_download : ℕ
  squadra : String
  punteggio_giornata : ℚ
deriving DecidableEq

/-! ## `normalize_name` (main.py line 36)

Python: `" ".join(name.split()).strip().lower()`.
`str.split()` splits on runs of whitespace discarding empty pieces; we
implement it on the character list.  (Whitespace is modelled as ASCII
whitespace via `Char.isWhitespace`; `lower` as `Char.toLower`, which
agrees with Python on the ASCII range relevant here.) -/

/-- Helper for `pyWords`: accumulates the current word (reversed). -/
def wordsAux : List Char → List Char → List (List Char)
  | [], acc => if acc = [] then [] else [acc.reverse]
  | c :: cs, acc =>
    if c.isWhitespace then
      (if acc = [] then wordsAux cs [] else acc.reverse :: wordsAux cs [])
    else wordsAux cs (c :: acc)

/-- Python `str.split()` with no argument: maximal runs of
non-whitespace characters. -/
def pyWords (cs : List Char) : List (List Char) := wordsAux cs []

/-- Python `" ".join(ws)` on character lists. -/
def joinSpace : List (List Char) → List Char
  | [] => []
  | [w] => w
  | w :: ws => w ++ ' ' :: joinSpace ws

/-- Python `str.strip()`: drop whitespace from both ends. -/
def stripWs (cs : List Char) : List Char :=
  ((cs.dropWhile (·.isWhitespace)).reverse.dropWhile (·.isWhitespace)).reverse

/-- main.py line 36: `normalize_name`. -/
def normalize_name (name : String) : String :=
  ⟨(stripWs (joinSpace (pyWords name.toList))).map Char.toLower⟩

/-! ## `parse_italian_number` (main.py lines 40-46)

Python:
```
s = s.replace("\xa0", " ").replace(" ", "")
s = s.replace(".", "").replace(",", ".")
return float(s)
```
All four `str.replace` patterns are single characters, so each call is
a character-wise map/filter.  `float(...)` is modelled for the plain
decimal fragment of its grammar, `[sign] digits [. digits]` (with at
least one digit); exponent forms, `inf`/`nan` and underscores are
outside the modelled scope, and a string outside the fragment yields
`none` (Python raises `ValueError`, which every caller catches and
treats as "skip this value"). -/

/-- Numeric value of a decimal digit character. -/
def digitVal (c : Char) : ℕ := c.toNat - 48

/-- Value of a digit string read in base 10. -/
def digitsToNat (cs : List Char) : ℕ := cs.foldl (fun n c => n * 10 + digitVal c) 0

/-- Python `float(s)` restricted to plain decimal literals. -/
def pyFloatOfChars (cs : List Char) : Option ℚ :=
  let sgn : ℚ := if cs.head? = some '-' then -1 else 1
  let body := if cs.head? = some '-' ∨ cs.head? = some '+' then cs.tail else cs
  let ip := body.takeWhile (· ≠ '.')
  let rest := body.dropWhile (· ≠ '.')
  if rest = [] then
    if ip ≠ [] ∧ ip.all (·.isDigit) then some (sgn * digitsToNat ip) else none
  else
    let fp := rest.tail
    if fp.all (· ≠ '.') ∧ (ip ≠ [] ∨ fp ≠ []) ∧ ip.all (·.isDigit) ∧ fp.all (·.isDigit) then
      some (sgn * ((digitsToNat ip : ℚ) + (digitsToNat fp : ℚ) / 10 ^ fp.length))
    else none

/-- main.py lines 40-46: `parse_italian_number`. -/
def parse_italian_number (s : String) : Option ℚ :=
  let c1 := s.toList.map (fun c => if c = '\u00A0' then ' ' else c)
  let c2 := c1.filter (· ≠ ' ')
  let c3 := c2.filter (· ≠ '.')
  let c4 := c3.map (fun c => if c = ',' then '.' else c)
  pyFloatOfChars c4

/-! ## `collect_current_scores` (main.py lines 109-119)

The Python dict `scores` is modelled as an association list in key
insertion order; `scores[norm] = v` on a present key replaces the value
in place, on an absent key appends at the end. -/

/-- Dict lookup on the association list (first matching key). -/
def lookupA (k : String) : List (String × TS) → Option TS
  | [] => none
  | p :: rest => if p.1 = k then some p.2 else lookupA k rest

/-- Dict update of a present key: replace the value, keep the position. -/
def setA (k : String) (v : TS) : List (String × TS) → List (String × TS)
  | [] => []
  | p :: rest => if p.1 = k then (k, v) :: rest else p :: setA k v rest

/-- Body of the loop in `collect_current_scores`: process one row. -/
def insertScore (scores : List (String × TS)) (row : Obs) : List (String × TS) :=
  let norm := normalize_name row.squadra
  match lookupA norm scores with
  | none => scores ++ [(norm, ⟨row.squadra, row.punti⟩)]
  | some v => if v.punti < row.punti then setA norm ⟨row.squadra, row.punti⟩ scores else scores

/-- main.py lines 109-119: `collect_current_scores`. -/
def collect_current_scores (all_rows : List Obs) : List (String × TS) :=
  all_rows.foldl insertScore []

/-! ## `update_storico` helpers (main.py lines 144-206) -/

/-- main.py lines 187-192: the row `df_last` holds for a team key, i.e.
of the rows with that `squadra_norm`, the one with maximal `giornata`
(on equal `giornata`, the later row of the frame: the sort is stable
and `groupby(...).tail(1)` keeps the last row of the group).  `none`
iff the key has no row at all.  `pickLater` keeps, of two candidate
rows, the one with the larger round (the later row on equal rounds). -/
def pickLater (acc : Option Entry) (e : Entry) : Option Entry :=
  match acc with
  | none => some e
  | some a => if a.giornata ≤ e.giornata then some e else some a

/-- See `pickLater`: the `df_last` row for key `n`. -/
def lastE (df : List Entry) (n : String) : Option Entry :=
  (df.filter (fun e => e.squadra_norm = n)).foldl pickLater none

/-- main.py line 194: `int(df_storico["giornata"].max())` (only used on
a non-empty ledger; the `getD 0` default is never reached there). -/
def maxGiornata (df : List Entry) : ℕ :=
  ((df.map (fun e => e.giornata)).max?).getD 0

/-- main.py lines 144-151: `compute_prev_giornata_date`. -/
def compute_prev_giornata_date (df : List Entry) (giornata : ℕ) (fallback_dt : ℕ) : ℕ :=
  match ((df.filter (fun e => e.giornata = giornata)).map (fun e => e.data_download)).max? with
  | none => fallback_dt
  | some d => d

/-- Classification predicate, lines 199-200: the key is absent from the
ledger. -/
def isNew (df : List Entry) (p : String × TS) : Bool :=
  (lastE df p.1).isNone

/-- Classification predicate, lines 202-204: present and
`abs(cur - prev) > float_eps`. -/
def isChanged (df : List Entry) (eps : ℚ) (p : String × TS) : Bool :=
  match lastE df p.1 with
  | none => false
  | some e => decide (eps < |p.2.punti - e.punteggio_totale|)

/-- Classification predicate, lines 205-206: present and within
epsilon. -/
def isUnchanged (df : List Entry) (eps : ℚ) (p : String × TS) : Bool :=
  match lastE df p.1 with
  | none => false
  | some e => !(decide (eps < |p.2.punti - e.punteggio_totale|))

/-- main.py lines 246-247 / 274-275: `(g, n)` occurs among the existing
`(giornata, squadra_norm)` keys. -/
def existsKey (df : List Entry) (g : ℕ) (n : String) : Bool :=
  df.any (fun e => e.giornata = g ∧ e.squadra_norm = n)

/-- Building one appended ledger row from a snapshot pair. -/
def mkRow (g dt : ℕ) (p : String × TS) : Entry :=
  { giornata := g, data_download := dt, squadra := p.2.squadra
    squadra_norm := p.1, punteggio_totale := p.2.punti }

/-- `float_eps` default of `update_storico` (main.py line 158). -/
def float_eps : ℚ := 1 / 1000000

/-- main.py lines 154-284: `update_storico`.  The classification loop
(lines 196-206) appends each snapshot pair to exactly one of the three
lists `changed` / `unchanged` / `new_teams`, in snapshot order; each
list is therefore a `filter` of the snapshot. -/
def update_storico (df_storico : List Entry) (current_scores : List (String × TS))
    (run_dt : ℕ) (eps : ℚ) : List Entry × Option ℕ × Stats :=
  if df_storico = [] then
    let rows := current_scores.map (mkRow 1 run_dt)
    (rows, some 1, ⟨rows.length, 0, 0, 0⟩)
  else
    let last_giornata := maxGiornata df_storico
    let changed := current_scores.filter (isChanged df_storico eps)
    let unchanged := current_scores.filter (isUnchanged df_storico eps)
    let new_teams := current_scores.filter (isNew df_storico)
    if changed ≠ [] then
      let giornata_new := last_giornata + 1
      let prev_dt := compute_prev_giornata_date df_storico last_giornata run_dt
      let df_new :=
        (changed.map (mkRow giornata_new run_dt) ++ new_teams.map (mkRow last_giornata prev_dt)).filter
          (fun r => !(existsKey df_storico r.giornata r.squadra_norm))
      (df_storico ++ df_new, some giornata_new,
        ⟨changed.length, new_teams.length, unchanged.length, 0⟩)
    else if new_teams ≠ [] then
      let prev_dt := compute_prev_giornata_date df_storico last_giornata run_dt
      let df_new :=
        (new_teams.map (mkRow last_giornata prev_dt)).filter
          (fun r => !(existsKey df_storico r.giornata r.squadra_norm))
      (df_storico ++ df_new, none, ⟨0, new_teams.length, unchanged.length, 0⟩)
    else
      (df_storico, none, ⟨0, 0, unchanged.length, 1⟩)

/-- `update_storico` with the two defensive duplicate-key filters
(main.py lines 243-248 and 271-276) removed; used to state that the
filters never drop a row. -/
def update_storico_nofilter (df_storico : List Entry) (current_scores : List (String × TS))
    (run_dt : ℕ) (eps : ℚ) : List Entry × Option ℕ × Stats :=
  if df_storico = [] then
    let rows := current_scores.map (mkRow 1 run_dt)
    (rows, some 1, ⟨rows.length, 0, 0, 0⟩)
  else
    let last_giornata := maxGiornata df_storico
    let changed := current_scores.filter (isChanged df_storico eps)
    let unchanged := current_scores.filter (isUnchanged df_storico eps)
    let new_teams := current_scores.filter (isNew df_storico)
    if changed ≠ [] then
      let giornata_new := last_giornata + 1
      let prev_dt := compute_prev_giornata_date df_storico last_giornata run_dt
      let df_new :=
        changed.map (mkRow giornata_new run_dt) ++ new_teams.map (mkRow last_giornata prev_dt)
      (df_storico ++ df_new, some giornata_new,
        ⟨changed.length, new_teams.length, unchanged.length, 0⟩)
    else if new_teams ≠ [] then
      let prev_dt := compute_prev_giornata_date df_storico last_giornata run_dt
      let df_new := new_teams.map (mkRow last_giornata prev_dt)
      (df_storico ++ df_new, none, ⟨0, new_teams.length, unchanged.length, 0⟩)
    else
      (df_storico, none, ⟨0, 0, unchanged.length, 1⟩)

/-! ## The two views (main.py lines 287-311)

Both start from `df.sort_values(["squadra_norm", "giornata"])` followed
by `groupby("squadra_norm")`.  After the stable sort the groups are the
contiguous blocks of equal `squadra_norm`, in ascending key order, and
inside a block the rows are by ascending `giornata` (original order on
ties).  We model the pipeline at that granularity: the block of key `n`
is `teamEntries df n`, the block order is `sortedNorms df`, and the
last row of the block (`groupby(...).tail(1)`) is `lastE df n`. -/

/-- The distinct `squadra_norm` keys of the ledger in ascending string
order (the `groupby` block order after the sort). -/
def sortedNorms (df : List Entry) : List String :=
  List.insertionSort (fun a b => a ≤ b) ((df.map (fun e => e.squadra_norm)).dedup)

/-- Sort relation: ascending `giornata` (within one team's block). -/
def giornataLe (a b : Entry) : Prop := a.giornata ≤ b.giornata

instance : DecidableRel giornataLe := fun a b => inferInstanceAs (Decidable (a.giornata ≤ b.giornata))

instance : IsTotal Entry giornataLe := ⟨fun a b => Nat.le_total a.giornata b.giornata⟩

instance : IsTrans Entry giornataLe := ⟨fun _ _ _ h1 h2 => Nat.le_trans h1 h2⟩

/-- One team's rows ordered by ascending `giornata` (stable). -/
def teamEntries (df : List Entry) (n : String) : List Entry :=
  List.insertionSort giornataLe (df.filter (fun e => e.squadra_norm = n))

/-- main.py lines 302-307: the one-row-per-team frame
`sort_values(["squadra_norm","giornata"]).groupby("squadra_norm").tail(1)`. -/
def last_per_team (df : List Entry) : List Entry :=
  (sortedNorms df).filterMap (lastE df)

/-- Ascending comparison underlying the descending sort of line 309.
pandas implements `sort_values("punteggio_totale", ascending=False)`
via `nargsort`: it computes the *ascending* argsort of the column with
the default sort kind and then reverses the resulting indexer.  numpy's
default kind runs insertion sort — a stable sort — on small arrays, so
the ascending pass is modelled as the stable `List.insertionSort` by
this relation, and the descending frame as its reversal.  (Beyond
numpy's insertion-sort threshold the ascending tie order is
implementation-defined; the reversal of the indexer is unconditional.) -/
def scoreAscRel (a b : Entry) : Prop := a.punteggio_totale ≤ b.punteggio_totale

instance : DecidableRel scoreAscRel :=
  fun a b => inferInstanceAs (Decidable (a.punteggio_totale ≤ b.punteggio_totale))

instance : IsTotal Entry scoreAscRel := ⟨fun a b => le_total a.punteggio_totale b.punteggio_totale⟩

instance : IsTrans Entry scoreAscRel := ⟨fun _ _ _ h1 h2 => le_trans h1 h2⟩

/-- One output row of the standings sheet: 1-based position from the
0-based index, then the retained columns (line 310). -/
def mkClasRow (p : ℕ × Entry) : ClasRow :=
  ⟨p.1 + 1, p.2.squadra, p.2.punteggio_totale, p.2.giornata, p.2.data_download⟩

/-- main.py lines 298-311: `build_ultima_classifica`.  The descending
score sort of line 309 is the reversal of the stable ascending sort,
per pandas `nargsort` (see `scoreAscRel`). -/
def build_ultima_classifica (df_storico : List Entry) : List ClasRow :=
  if df_storico = [] then []
  else (((List.insertionSort scoreAscRel (last_per_team df_storico)).reverse).enum).map mkClasRow

/-- Consecutive per-team differences: the rows whose shifted previous
total is non-null, i.e. every row of the block except the first, with
`punteggio_giornata = punteggio_totale - prev_tot` (lines 291-293). -/
def deltasOf : List Entry → List GRow
  | a :: b :: rest =>
    ⟨b.giornata, b.data_download, b.squadra, b.punteggio_totale - a.punteggio_totale⟩ ::
      deltasOf (b :: rest)
  | _ => []

/-- Sort relation of line 294: `giornata` ascending, then
`punteggio_giornata` descending. -/
def gRowRel (a b : GRow) : Prop :=
  a.giornata < b.giornata ∨ (a.giornata = b.giornata ∧ b.punteggio_giornata ≤ a.punteggio_giornata)

instance : DecidableRel gRowRel :=
  fun a b => inferInstanceAs (Decidable (_ ∨ _))

instance : IsTotal GRow gRowRel := by
  constructor
  intro a b
  rcases Nat.lt_trichotomy a.giornata b.giornata with h | h | h
  · exact Or.inl (Or.inl h)
  · rcases le_total b.punteggio_giornata a.punteggio_giornata with h2 | h2
    · exact Or.inl (Or.inr ⟨h, h2⟩)
    · exact Or.inr (Or.inr ⟨h.symm, h2⟩)
  · exact Or.inr (Or.inl h)

instance : IsTrans GRow gRowRel := by
  constructor
  rintro a b c (h1 | ⟨h1, h1s⟩) (h2 | ⟨h2, h2s⟩)
  · exact Or.inl (Nat.lt_trans h1 h2)
  · exact Or.inl (h2 ▸ h1)
  · exact Or.inl (h1 ▸ h2)
  · exact Or.inr ⟨h1.trans h2, h2s.trans h1s⟩

/-- main.py lines 287-295: `build_punteggi_giornata`. -/
def build_punteggi_giornata (df_storico : List Entry) : List GRow :=
  if df_storico = [] then []
  else
    List.insertionSort gRowRel
      ((sortedNorms df_storico).flatMap (fun n => deltasOf (teamEntries df_storico n)))

/-- Spec-side reference (spec §4.4, for the refinement comparison in
C9): for one team, order its entries by round ascending and emit, for
every entry except the first, the difference with the previous entry. -/
def spec_team_delta_rows (df : List Entry) (n : String) : List GRow :=
  let es := teamEntries df n
  (es.zip es.tail).map
    (fun p => ⟨p.2.giornata, p.2.data_download, p.2.squadra,
               p.2.punteggio_totale - p.1.punteggio_totale⟩)

/-- The non-`posizione` data of a standings row. -/
def rowData (r : ClasRow) : String × ℚ × ℕ × ℕ :=
  (r.squadra, r.punteggio_totale, r.giornata, r.data_download)

/-- The columns of a ledger row kept by `build_ultima_classifica`. -/
def entryData (e : Entry) : String × ℚ × ℕ × ℕ :=
  (e.squadra, e.punteggio_totale, e.giornata, e.data_download)

/-- Merge of two optional scores by maximum (C6 proof device). -/
def combineQ : Option ℚ → Option ℚ → Option ℚ
  | none, b => b
  | some a, none => some a
  | some a, some b => some (max a b)

/-- The maximum observed score among the observations whose normalized
name is `k` (`none` when there is no such observation); spec-side
reference for C6. -/
def scoresMax (k : String) : List Obs → Option ℚ
  | [] => none
  | r :: rest =>
    if normalize_name r.squadra = k then combineQ (some r.punti) (scoresMax k rest)
    else scoresMax k rest

/-! ## Helper lemmas: `List.max?` over naturals -/

lemma le_foldl_max (l : List ℕ) : ∀ a : ℕ, a ≤ l.foldl max a := by
  induction l with
  | nil => intro a; simp
  | cons x l ih =>
    intro a
    rw [List.foldl_cons]
    exact le_trans (le_max_left a x) (ih (max a x))

lemma mem_le_foldl_max (l : List ℕ) : ∀ (a x : ℕ), x ∈ l → x ≤ l.foldl max a := by
  induction l with
  | nil => intro a x hx; cases hx
  | cons y l ih =>
    intro a x hx
    rw [List.foldl_cons]
    rcases List.mem_cons.mp hx with h | h
    · subst h; exact le_trans (le_max_right a x) (le_foldl_max l (max a x))
    · exact ih (max a y) x h

lemma foldl_max_mem (l : List ℕ) : ∀ a : ℕ, l.foldl max a = a ∨ l.foldl max a ∈ l := by
  induction l with
  | nil => intro a; exact Or.inl rfl
  | cons x l ih =>
    intro a
    rw [List.foldl_cons]
    rcases ih (max a x) with h | h
    · rcases max_choice a x with hm | hm
      · exact Or.inl (h.trans hm)
      · exact Or.inr (by rw [h, hm]; exact List.mem_cons_self x l)
    · exact Or.inr (List.mem_cons_of_mem x h)

lemma nat_max?_spec (l : List ℕ) :
    (l = [] ∧ l.max? = none) ∨ ∃ m, l.max? = some m ∧ m ∈ l ∧ ∀ x ∈ l, x ≤ m := by
  cases l with
  | nil => exact Or.inl ⟨rfl, rfl⟩
  | cons a l =>
    refine Or.inr ⟨l.foldl max a, rfl, ?_, ?_⟩
    · rcases foldl_max_mem l a with h | h
      · rw [h]; exact List.mem_cons_self a l
      · exact List.mem_cons_of_mem a h
    · intro x hx
      rcases List.mem_cons.mp hx with h | h
      · subst h; exact le_foldl_max l x
      · exact mem_le_foldl_max l a x h

/-! ## Helper lemmas: `maxGiornata` and `compute_prev_giornata_date` -/

lemma maxGiornata_ge {df : List Entry} {e : Entry} (he : e ∈ df) :
    e.giornata ≤ maxGiornata df := by
  have hmem : e.giornata ∈ df.map (fun e => e.giornata) := List.mem_map_of_mem _ he
  rcases nat_max?_spec (df.map (fun e => e.giornata)) with ⟨h1, _⟩ | ⟨m, hm, _, hle⟩
  · rw [h1] at hmem; cases hmem
  · have := hle _ hmem
    rw [maxGiornata, hm]
    simpa using this

lemma maxGiornata_mem {df : List Entry} (h : df ≠ []) :
    maxGiornata df ∈ df.map (fun e => e.giornata) := by
  rcases nat_max?_spec (df.map (fun e => e.giornata)) with ⟨h1, _⟩ | ⟨m, hm, hmem, _⟩
  · exact absurd (List.map_eq_nil_iff.mp h1) h
  · rw [maxGiornata, hm]
    simpa using hmem

lemma cpd_eq_fallback {df : List Entry} {g fb : ℕ}
    (h : (df.filter (fun e => e.giornata = g)).map (fun e => e.data_download) = []) :
    compute_prev_giornata_date df g fb = fb := by
  rw [compute_prev_giornata_date, h]
  rfl

lemma cpd_spec {df : List Entry} {g fb : ℕ}
    (h : (df.filter (fun e => e.giornata = g)).map (fun e => e.data_download) ≠ []) :
    compute_prev_giornata_date df g fb ∈
        (df.filter (fun e => e.giornata = g)).map (fun e => e.data_download) ∧
      ∀ d ∈ (df.filter (fun e => e.giornata = g)).map (fun e => e.data_download),
        d ≤ compute_prev_giornata_date df g fb := by
  rcases nat_max?_spec ((df.filter (fun e => e.giornata = g)).map (fun e => e.data_download)) with
    ⟨h1, _⟩ | ⟨m, hm, hmem, hle⟩
  · exact absurd h1 h
  · rw [compute_prev_giornata_date, hm]
    exact ⟨hmem, hle⟩

/-! ## Helper lemmas: `pickLater`, `lastE`, `existsKey` -/

lemma pickLater_cases (acc : Option Entry) (x : Entry) :
    (pickLater acc x = some x ∧ ∀ a, acc = some a → a.giornata ≤ x.giornata) ∨
    (pickLater acc x = acc ∧ ∃ a, acc = some a ∧ x.giornata ≤ a.giornata) := by
  cases acc with
  | none => exact Or.inl ⟨rfl, by intro a h; cases h⟩
  | some a =>
    by_cases h : a.giornata ≤ x.giornata
    · refine Or.inl ⟨by simp [pickLater, h], ?_⟩
      intro b hb
      injection hb with hb2
      exact hb2 ▸ h
    · exact Or.inr ⟨by simp [pickLater, h], a, rfl, le_of_not_le h⟩

lemma foldl_pickLater_some (l : List Entry) : ∀ a : Entry, ∃ e, l.foldl pickLater (some a) = some e := by
  induction l with
  | nil => intro a; exact ⟨a, rfl⟩
  | cons x l ih =>
    intro a
    rw [List.foldl_cons]
    rcases pickLater_cases (some a) x with ⟨hp, _⟩ | ⟨hp, _⟩
    · rw [hp]; exact ih x
    · rw [hp]; exact ih a

lemma foldl_pickLater_spec (l : List Entry) :
    ∀ (acc : Option Entry) (e : Entry), l.foldl pickLater acc = some e →
      (acc = some e ∨ e ∈ l) ∧ (∀ a, acc = some a → a.giornata ≤ e.giornata) ∧
        ∀ x ∈ l, x.giornata ≤ e.giornata := by
  induction l with
  | nil =>
    intro acc e h
    refine ⟨Or.inl h, ?_, by simp⟩
    intro a ha
    rw [ha] at h
    injection h with h2
    exact le_of_eq (congrArg (fun z => z.giornata) h2)
  | cons x l ih =>
    intro acc e h
    rw [List.foldl_cons] at h
    obtain ⟨hmem, hacc, hall⟩ := ih (pickLater acc x) e h
    rcases pickLater_cases acc x with ⟨hp, hmono⟩ | ⟨hp, a, ha, hxa⟩
    · rw [hp] at hmem hacc
      have hxe : x.giornata ≤ e.giornata := hacc x rfl
      refine ⟨?_, ?_, ?_⟩
      · rcases hmem with hm | hm
        · injection hm with h2
          exact Or.inr (List.mem_cons.mpr (Or.inl h2.symm))
        · exact Or.inr (List.mem_cons_of_mem x hm)
      · intro b hb
        exact le_trans (hmono b hb) hxe
      · intro y hy
        rcases List.mem_cons.mp hy with h1 | h1
        · rw [h1]; exact hxe
        · exact hall y h1
    · rw [hp] at hmem hacc
      have hae : a.giornata ≤ e.giornata := hacc a ha
      refine ⟨?_, ?_, ?_⟩
      · rcases hmem with hm | hm
        · exact Or.inl hm
        · exact Or.inr (List.mem_cons_of_mem x hm)
      · exact hacc
      · intro y hy
        rcases List.mem_cons.mp hy with h1 | h1
        · rw [h1]; exact le_trans hxa hae
        · exact hall y h1

lemma lastE_eq_none_iff {df : List Entry} {n : String} :
    lastE df n = none ↔ ∀ e ∈ df, ¬ e.squadra_norm = n := by
  rw [lastE]
  cases hl : df.filter (fun e => e.squadra_norm = n) with
  | nil =>
    simp only [List.foldl_nil]
    constructor
    · intro _
      intro e he hn
      have : e ∈ df.filter (fun e => e.squadra_norm = n) := List.mem_filter.mpr ⟨he, by simpa using hn⟩
      rw [hl] at this
      cases this
    · intro _; trivial
  | cons a l =>
    rw [List.foldl_cons]
    have hpick : pickLater none a = some a := rfl
    rw [hpick]
    obtain ⟨e, he⟩ := foldl_pickLater_some l a
    rw [he]
    constructor
    · intro hcon; cases hcon
    · intro hforall
      have : a ∈ df.filter (fun e => e.squadra_norm = n) := by rw [hl]; exact List.mem_cons_self a l
      have h2 := List.mem_filter.mp this
      exact absurd (by simpa using h2.2) (hforall a h2.1)

lemma lastE_spec {df : List Entry} {n : String} {e : Entry} (h : lastE df n = some e) :
    e ∈ df ∧ e.squadra_norm = n ∧ ∀ x ∈ df, x.squadra_norm = n → x.giornata ≤ e.giornata := by
  rw [lastE] at h
  obtain ⟨hmem, _, hall⟩ := foldl_pickLater_spec _ _ _ h
  have hmem2 : e ∈ df.filter (fun e => e.squadra_norm = n) := by
    rcases hmem with hm | hm
    · cases hm
    · exact hm
  have hf := List.mem_filter.mp hmem2
  refine ⟨hf.1, by simpa using hf.2, ?_⟩
  intro x hx hxn
  exact hall x (List.mem_filter.mpr ⟨hx, by simpa using hxn⟩)

lemma lastE_isSome_of_mem {df : List Entry} {n : String}
    (h : n ∈ df.map (fun e => e.squadra_norm)) : ∃ e, lastE df n = some e := by
  rw [lastE]
  obtain ⟨x, hx, hxn⟩ := List.mem_map.mp h
  cases hl : df.filter (fun e => e.squadra_norm = n) with
  | nil =>
    have : x ∈ df.filter (fun e => e.squadra_norm = n) := List.mem_filter.mpr ⟨hx, by simpa using hxn⟩
    rw [hl] at this
    cases this
  | cons a l =>
    rw [List.foldl_cons]
    have hpick : pickLater none a = some a := rfl
    rw [hpick]
    exact foldl_pickLater_some l a

lemma existsKey_true_iff {df : List Entry} {g : ℕ} {n : String} :
    existsKey df g n = true ↔ ∃ e ∈ df, e.giornata = g ∧ e.squadra_norm = n := by
  simp [existsKey]

lemma existsKey_false_iff {df : List Entry} {g : ℕ} {n : String} :
    existsKey df g n = false ↔ ∀ e ∈ df, ¬(e.giornata = g ∧ e.squadra_norm = n) := by
  simp [existsKey, not_and]

/-! ## Helper lemmas: association-list dictionary (for C6) -/

lemma combineQ_none_right (a : Option ℚ) : combineQ a none = a := by
  cases a <;> rfl

lemma combineQ_assoc (a b c : Option ℚ) :
    combineQ (combineQ a b) c = combineQ a (combineQ b c) := by
  cases a <;> cases b <;> cases c <;> simp [combineQ, max_assoc]

lemma combineQ_left_comm (a b c : Option ℚ) :
    combineQ a (combineQ b c) = combineQ b (combineQ a c) := by
  cases a <;> cases b <;> cases c <;> simp [combineQ, max_left_comm, max_comm]

lemma lookupA_append_some {k : String} {l₁ : List (String × TS)} {v : TS}
    (h : lookupA k l₁ = some v) (l₂ : List (String × TS)) :
    lookupA k (l₁ ++ l₂) = some v := by
  induction l₁ with
  | nil => cases h
  | cons p rest ih =>
    rw [lookupA] at h
    by_cases hp : p.1 = k
    · rw [if_pos hp] at h
      simp [lookupA, hp, h]
    · rw [if_neg hp] at h
      simp [lookupA, hp, ih h]

lemma lookupA_append_none {k : String} {l₁ : List (String × TS)}
    (h : lookupA k l₁ = none) (l₂ : List (String × TS)) :
    lookupA k (l₁ ++ l₂) = lookupA k l₂ := by
  induction l₁ with
  | nil => rfl
  | cons p rest ih =>
    rw [lookupA] at h
    by_cases hp : p.1 = k
    · rw [if_pos hp] at h
      cases h
    · rw [if_neg hp] at h
      simp [lookupA, hp, ih h]

lemma lookupA_append_single_ne {k n : String} {v : TS} {l : List (String × TS)} (h : n ≠ k) :
    lookupA k (l ++ [(n, v)]) = lookupA k l := by
  cases hl : lookupA k l with
  | some w => exact lookupA_append_some hl _
  | none =>
    rw [lookupA_append_none hl]
    simp [lookupA, h]

lemma lookupA_setA_found {k : String} {l : List (String × TS)}
    (h : (lookupA k l).isSome = true) (v : TS) :
    lookupA k (setA k v l) = some v := by
  induction l with
  | nil => cases h
  | cons p rest ih =>
    by_cases hp : p.1 = k
    · simp [setA, lookupA, hp]
    · rw [lookupA, if_neg hp] at h
      simp [setA, lookupA, hp, ih h]

lemma lookupA_setA_ne {k n : String} {v : TS} {l : List (String × TS)} (h : n ≠ k) :
    lookupA k (setA n v l) = lookupA k l := by
  induction l with
  | nil => rfl
  | cons p rest ih =>
    by_cases hp : p.1 = n
    · rw [setA, if_pos hp, lookupA, lookupA, if_neg h, if_neg (fun hc => h (hp ▸ hc))]
    · rw [setA, if_neg hp, lookupA, lookupA]
      by_cases hpk : p.1 = k
      · rw [if_pos hpk, if_pos hpk]
      · rw [if_neg hpk, if_neg hpk, ih]

lemma lookup_insertScore (acc : List (String × TS)) (row : Obs) (k : String) :
    (lookupA k (insertScore acc row)).map (fun v => v.punti) =
      combineQ ((lookupA k acc).map (fun v => v.punti))
        (if normalize_name row.squadra = k then some row.punti else none) := by
  unfold insertScore
  by_cases hn : normalize_name row.squadra = k
  · subst hn
    cases hacc : lookupA (normalize_name row.squadra) acc with
    | none =>
      simp only [hacc]
      rw [lookupA_append_none hacc]
      simp [lookupA, combineQ]
    | some v =>
      simp only [hacc]
      by_cases hlt : v.punti < row.punti
      · rw [if_pos hlt]
        rw [lookupA_setA_found (by rw [hacc]; rfl) _]
        simp [combineQ, max_eq_right (le_of_lt hlt)]
      · rw [if_neg hlt]
        simp [hacc, combineQ, max_eq_left (le_of_not_lt hlt)]
  · cases hacc : lookupA (normalize_name row.squadra) acc with
    | none =>
      simp only [hacc]
      rw [lookupA_append_single_ne hn]
      simp [if_neg hn, combineQ_none_right]
    | some v =>
      simp only [hacc]
      by_cases hlt : v.punti < row.punti
      · rw [if_pos hlt, lookupA_setA_ne hn]
        simp [if_neg hn, combineQ_none_right]
      · rw [if_neg hlt]
        simp [if_neg hn, combineQ_none_right]

lemma lookup_foldl_insertScore (l : List Obs) :
    ∀ (acc : List (String × TS)) (k : String),
      (lookupA k (l.foldl insertScore acc)).map (fun v => v.punti) =
        combineQ ((lookupA k acc).map (fun v => v.punti)) (scoresMax k l) := by
  induction l with
  | nil =>
    intro acc k
    rw [List.foldl_nil, scoresMax]
    exact (combineQ_none_right _).symm
  | cons r l ih =>
    intro acc k
    rw [List.foldl_cons, ih (insertScore acc r) k, lookup_insertScore, scoresMax]
    by_cases hn : normalize_name r.squadra = k
    · rw [if_pos hn, if_pos hn, combineQ_assoc]
    · rw [if_neg hn, if_neg hn, combineQ_none_right]

lemma scoresMax_perm {l₁ l₂ : List Obs} (h : l₁.Perm l₂) (k : String) :
    scoresMax k l₁ = scoresMax k l₂ := by
  induction h with
  | nil => rfl
  | cons x _ ih => rw [scoresMax, scoresMax, ih]
  | swap x y l =>
    rw [scoresMax, scoresMax, scoresMax, scoresMax]
    by_cases hx : normalize_name x.squadra = k <;> by_cases hy : normalize_name y.squadra = k <;>
      simp [hx, hy, combineQ_left_comm]
  | trans _ _ ih₁ ih₂ => rw [ih₁, ih₂]

/-! ## Branch lemmas for `update_storico` -/

lemma upd_empty (cs : List (String × TS)) (run_dt : ℕ) (eps : ℚ) :
    update_storico [] cs run_dt eps =
      (cs.map (mkRow 1 run_dt), some 1, ⟨cs.length, 0, 0, 0⟩) := by
  simp [update_storico]

lemma upd_changed {df : List Entry} (cs : List (String × TS)) (run_dt : ℕ) (eps : ℚ)
    (hdf : df ≠ []) (hch : cs.filter (isChanged df eps) ≠ []) :
    update_storico df cs run_dt eps =
      (df ++ ((cs.filter (isChanged df eps)).map (mkRow (maxGiornata df + 1) run_dt) ++
          (cs.filter (isNew df)).map
            (mkRow (maxGiornata df) (compute_prev_giornata_date df (maxGiornata df) run_dt))).filter
          (fun r => !(existsKey df r.giornata r.squadra_norm)),
        some (maxGiornata df + 1),
        ⟨(cs.filter (isChanged df eps)).length, (cs.filter (isNew df)).length,
          (cs.filter (isUnchanged df eps)).length, 0⟩) := by
  unfold update_storico
  rw [if_neg hdf]
  dsimp only
  rw [if_pos hch]

lemma upd_newonly {df : List Entry} (cs : List (String × TS)) (run_dt : ℕ) (eps : ℚ)
    (hdf : df ≠ []) (hch : cs.filter (isChanged df eps) = [])
    (hnw : cs.filter (isNew df) ≠ []) :
    update_storico df cs run_dt eps =
      (df ++ ((cs.filter (isNew df)).map
            (mkRow (maxGiornata df) (compute_prev_giornata_date df (maxGiornata df) run_dt))).filter
          (fun r => !(existsKey df r.giornata r.squadra_norm)),
        none,
        ⟨0, (cs.filter (isNew df)).length, (cs.filter (isUnchanged df eps)).length, 0⟩) := by
  unfold update_storico
  rw [if_neg hdf]
  dsimp only
  rw [if_neg (not_ne_iff.mpr hch), if_pos hnw]

lemma upd_nochange {df : List Entry} (cs : List (String × TS)) (run_dt : ℕ) (eps : ℚ)
    (hdf : df ≠ []) (hch : cs.filter (isChanged df eps) = [])
    (hnw : cs.filter (isNew df) = []) :
    update_storico df cs run_dt eps =
      (df, none, ⟨0, 0, (cs.filter (isUnchanged df eps)).length, 1⟩) := by
  unfold update_storico
  rw [if_neg hdf]
  dsimp only
  rw [if_neg (not_ne_iff.mpr hch), if_neg (not_ne_iff.mpr hnw)]

lemma updnf_changed {df : List Entry} (cs : List (String × TS)) (run_dt : ℕ) (eps : ℚ)
    (hdf : df ≠ []) (hch : cs.filter (isChanged df eps) ≠ []) :
    update_storico_nofilter df cs run_dt eps =
      (df ++ ((cs.filter (isChanged df eps)).map (mkRow (maxGiornata df + 1) run_dt) ++
          (cs.filter (isNew df)).map
            (mkRow (maxGiornata df) (compute_prev_giornata_date df (maxGiornata df) run_dt))),
        some (maxGiornata df + 1),
        ⟨(cs.filter (isChanged df eps)).length, (cs.filter (isNew df)).length,
          (cs.filter (isUnchanged df eps)).length, 0⟩) := by
  unfold update_storico_nofilter
  rw [if_neg hdf]
  dsimp only
  rw [if_pos hch]

lemma updnf_newonly {df : List Entry} (cs : List (String × TS)) (run_dt : ℕ) (eps : ℚ)
    (hdf : df ≠ []) (hch : cs.filter (isChanged df eps) = [])
    (hnw : cs.filter (isNew df) ≠ []) :
    update_storico_nofilter df cs run_dt eps =
      (df ++ (cs.filter (isNew df)).map
          (mkRow (maxGiornata df) (compute_prev_giornata_date df (maxGiornata df) run_dt)),
        none,
        ⟨0, (cs.filter (isNew df)).length, (cs.filter (isUnchanged df eps)).length, 0⟩) := by
  unfold update_storico_nofilter
  rw [if_neg hdf]
  dsimp only
  rw [if_neg (not_ne_iff.mpr hch), if_pos hnw]

lemma updnf_nochange {df : List Entry} (cs : List (String × TS)) (run_dt : ℕ) (eps : ℚ)
    (hdf : df ≠ []) (hch : cs.filter (isChanged df eps) = [])
    (hnw : cs.filter (isNew df) = []) :
    update_storico_nofilter df cs run_dt eps =
      (df, none, ⟨0, 0, (cs.filter (isUnchanged df eps)).length, 1⟩) := by
  unfold update_storico_nofilter
  rw [if_neg hdf]
  dsimp only
  rw [if_neg (not_ne_iff.mpr hch), if_neg (not_ne_iff.mpr hnw)]

/-! ## Helper lemmas: the two views -/

lemma sortedNorms_perm (df : List Entry) :
    (sortedNorms df).Perm ((df.map (fun e => e.squadra_norm)).dedup) :=
  List.perm_insertionSort _ _

lemma mem_sortedNorms {df : List Entry} {n : String} :
    n ∈ sortedNorms df ↔ n ∈ df.map (fun e => e.squadra_norm) := by
  rw [sortedNorms, List.mem_insertionSort, List.mem_dedup]

lemma length_filterMap_of_isSome {α β : Type} (f : α → Option β) (l : List α)
    (h : ∀ x ∈ l, (f x).isSome = true) : (l.filterMap f).length = l.length := by
  induction l with
  | nil => rfl
  | cons a l ih =>
    rw [List.filterMap_cons]
    cases hf : f a with
    | none =>
      have := h a (List.mem_cons_self a l)
      rw [hf] at this
      cases this
    | some b =>
      rw [List.length_cons, ih (fun x hx => h x (List.mem_cons_of_mem a hx)), List.length_cons]

lemma enumFrom_map_fst_succ {α : Type} (l : List α) :
    ∀ i, (List.enumFrom i l).map (fun p => p.1 + 1) = List.range' (i + 1) l.length := by
  induction l with
  | nil => intro i; rfl
  | cons a l ih =>
    intro i
    rw [List.enumFrom_cons, List.map_cons, List.length_cons, List.range'_succ, ih (i + 1)]

lemma enumFrom_map_snd {α β : Type} (g : α → β) (l : List α) :
    ∀ i, (List.enumFrom i l).map (fun p => g p.2) = l.map g := by
  induction l with
  | nil => intro i; rfl
  | cons a l ih =>
    intro i
    rw [List.enumFrom_cons, List.map_cons, List.map_cons, ih (i + 1)]

lemma snd_mem_of_mem_enumFrom {α : Type} {p : ℕ × α} {l : List α} :
    ∀ {i : ℕ}, p ∈ List.enumFrom i l → p.2 ∈ l := by
  induction l with
  | nil => intro i h; cases h
  | cons a l ih =>
    intro i h
    rw [List.enumFrom_cons] at h
    rcases List.mem_cons.mp h with h1 | h1
    · rw [h1]; exact List.mem_cons_self a l
    · exact List.mem_cons_of_mem a (ih h1)

lemma pairwise_enumFrom {α : Type} {R : α → α → Prop} {l : List α} (h : List.Pairwise R l) :
    ∀ i, List.Pairwise (fun p q : ℕ × α => R p.2 q.2) (List.enumFrom i l) := by
  induction h with
  | nil => intro i; exact List.Pairwise.nil
  | cons hr _ ih =>
    intro i
    rw [List.enumFrom_cons]
    exact List.Pairwise.cons (fun q hq => hr q.2 (snd_mem_of_mem_enumFrom hq)) (ih (i + 1))

lemma enumFrom_filter_snd {α β : Type} (q : α → Bool) (g : α → β) (l : List α) :
    ∀ i, ((List.enumFrom i l).filter (fun p => q p.2)).map (fun p => g p.2) =
      (l.filter q).map g := by
  induction l with
  | nil => intro i; rfl
  | cons a l ih =>
    intro i
    rw [List.enumFrom_cons, List.filter_cons, List.filter_cons]
    by_cases hq : q a = true
    · rw [if_pos hq, if_pos hq, List.map_cons, List.map_cons, ih (i + 1)]
    · rw [if_neg hq, if_neg hq, ih (i + 1)]

lemma filter_insertionSort_of_tied {α : Type} (r : α → α → Prop) [DecidableRel r] (p : α → Bool)
    (hp : ∀ a b, p a = true → p b = true → r a b) (l : List α) :
    (List.insertionSort r l).filter p = l.filter p := by
  have hsub : (l.filter p).Sublist (List.insertionSort r l) := by
    apply List.sublist_insertionSort
    · apply List.pairwise_of_forall_mem_list
      intro a ha b hb
      exact hp a b (List.mem_filter.mp ha).2 (List.mem_filter.mp hb).2
    · exact List.filter_sublist l
  have hperm : ((List.insertionSort r l).filter p).Perm (l.filter p) :=
    (List.perm_insertionSort r l).filter p
  have hself : (l.filter p).filter p = l.filter p := by
    apply List.filter_eq_self.mpr
    intro a ha
    exact (List.mem_filter.mp ha).2
  have hsub2 : (l.filter p).Sublist ((List.insertionSort r l).filter p) :=
    hself ▸ List.Sublist.filter p hsub
  exact (hsub2.eq_of_length hperm.length_eq.symm).symm

lemma count_team_filter (df : List Entry) (n : String) :
    (df.filter (fun e => e.squadra_norm = n)).length =
      (df.map (fun e => e.squadra_norm)).count n := by
  have h1 : (df.map (fun e => e.squadra_norm)).count n =
      (df.map (fun e => e.squadra_norm)).countP (· == n) := rfl
  rw [h1, List.countP_map, ← List.countP_eq_length_filter]
  apply List.countP_congr
  intro e _
  constructor
  · intro h
    have h2 : e.squadra_norm = n := of_decide_eq_true h
    simp [Function.comp, h2]
  · intro h
    have h2 : e.squadra_norm = n := by
      have : (e.squadra_norm == n) = true := h
      exact eq_of_beq this
    simp [h2]

lemma length_eq_sum_team_lengths (df : List Entry) :
    (((df.map (fun e => e.squadra_norm)).dedup).map
      (fun n => (df.filter (fun e => e.squadra_norm = n)).length)).sum = df.length := by
  rw [List.map_congr_left (fun n _ => count_team_filter df n)]
  rw [List.sum_map_count_dedup_eq_length (df.map (fun e => e.squadra_norm))]
  exact List.length_map _ _

lemma sum_map_sub_one (ls : List ℕ) (h : ∀ x ∈ ls, 1 ≤ x) :
    (ls.map (fun x => x - 1)).sum + ls.length = ls.sum := by
  induction ls with
  | nil => rfl
  | cons a ls ih =>
    have ha := h a (List.mem_cons_self a ls)
    have ih2 := ih (fun x hx => h x (List.mem_cons_of_mem a hx))
    rw [List.map_cons, List.sum_cons, List.sum_cons, List.length_cons]
    omega

lemma deltasOf_length : ∀ l : List Entry, (deltasOf l).length = l.length - 1
  | [] => rfl
  | [_] => rfl
  | a :: b :: rest => by
    rw [deltasOf, List.length_cons, deltasOf_length (b :: rest)]
    simp

lemma deltasOf_eq_zip : ∀ l : List Entry,
    deltasOf l = (l.zip l.tail).map
      (fun p => (⟨p.2.giornata, p.2.data_download, p.2.squadra,
        p.2.punteggio_totale - p.1.punteggio_totale⟩ : GRow))
  | [] => rfl
  | [_] => rfl
  | a :: b :: rest => by
    rw [deltasOf, deltasOf_eq_zip (b :: rest)]
    rfl

lemma flatMap_congr {α β : Type} {l : List α} {f g : α → List β} (h : ∀ a ∈ l, f a = g a) :
    l.flatMap f = l.flatMap g := by
  induction l with
  | nil => rfl
  | cons a l ih =>
    rw [List.flatMap_cons, List.flatMap_cons, h a (List.mem_cons_self a l),
      ih (fun x hx => h x (List.mem_cons_of_mem a hx))]

lemma perm_flatMap_of_perm {α β : Type} (f : α → List β) {l₁ l₂ : List α} (h : l₁.Perm l₂) :
    (l₁.flatMap f).Perm (l₂.flatMap f) := by
  induction h with
  | nil => exact List.Perm.refl _
  | cons x _ ih =>
    rw [List.flatMap_cons, List.flatMap_cons]
    exact ih.append_left (f x)
  | swap x y l =>
    rw [List.flatMap_cons, List.flatMap_cons, List.flatMap_cons, List.flatMap_cons,
      ← List.append_assoc, ← List.append_assoc]
    exact List.Perm.append_right _ List.perm_append_comm
  | trans _ _ ih₁ ih₂ => exact ih₁.trans ih₂

lemma mkrows_map_pos (l : List Entry) : ∀ i : ℕ,
    ((List.enumFrom i l).map mkClasRow).map (fun r => r.posizione) =
      List.range' (i + 1) l.length := by
  induction l with
  | nil => intro i; rfl
  | cons a l ih =>
    intro i
    rw [List.enumFrom_cons, List.map_cons, List.map_cons, List.length_cons, List.range'_succ,
      ih (i + 1)]
    rfl

lemma mkrows_map_rowData (l : List Entry) : ∀ i : ℕ,
    ((List.enumFrom i l).map mkClasRow).map rowData = l.map entryData := by
  induction l with
  | nil => intro i; rfl
  | cons a l ih =>
    intro i
    rw [List.enumFrom_cons, List.map_cons, List.map_cons, List.map_cons, ih (i + 1)]
    rfl

lemma mkrows_filter (l : List Entry) (v : ℚ) : ∀ i : ℕ,
    (((List.enumFrom i l).map mkClasRow).filter (fun r => r.punteggio_totale = v)).map rowData =
      (l.filter (fun e => e.punteggio_totale = v)).map entryData := by
  induction l with
  | nil => intro i; rfl
  | cons a l ih =>
    intro i
    rw [List.enumFrom_cons, List.map_cons, List.filter_cons, List.filter_cons]
    by_cases hv : a.punteggio_totale = v
    · rw [if_pos (by simpa [mkClasRow] using hv), if_pos (by simpa using hv),
        List.map_cons, List.map_cons, ih (i + 1)]
      rfl
    · rw [if_neg (by simpa [mkClasRow] using hv), if_neg (by simpa using hv), ih (i + 1)]

lemma last_per_team_length (df : List Entry) :
    (last_per_team df).length = ((df.map (fun e => e.squadra_norm)).dedup).length := by
  rw [last_per_team, length_filterMap_of_isSome, (sortedNorms_perm df).length_eq]
  intro n hn
  obtain ⟨e, he⟩ := lastE_isSome_of_mem (mem_sortedNorms.mp hn)
  rw [he]
  rfl

lemma last_per_team_map_perm (df : List Entry) :
    (((last_per_team df).map entryData)).Perm
      (((df.map (fun e => e.squadra_norm)).dedup).filterMap
        (fun n => (lastE df n).map entryData)) := by
  rw [last_per_team, List.map_filterMap]
  exact List.Perm.filterMap _ (sortedNorms_perm df)

/-! ## Claim theorems -/

/-- C1: Round monotonicity.  Whenever `update_storico` returns a new
round number, it is the maximum round already present in the ledger
plus one (where `maxGiornata` is indeed that maximum: an upper bound
attained by some row); and on an empty ledger (first reconciliation
ever) the returned round is 1. -/
theorem C1_round_monotonicity (df : List Entry) (cs : List (String × TS)) (run_dt : ℕ) (eps : ℚ) :
    (df = [] → (update_storico df cs run_dt eps).2.1 = some 1) ∧
    (df ≠ [] → ∀ r : ℕ, (update_storico df cs run_dt eps).2.1 = some r →
      r = maxGiornata df + 1 ∧ (∀ e ∈ df, e.giornata ≤ maxGiornata df) ∧
        maxGiornata df ∈ df.map (fun e => e.giornata)) := by
  constructor
  · intro h
    subst h
    rw [upd_empty]
  · intro hdf r hr
    by_cases hch : cs.filter (isChanged df eps) ≠ []
    · rw [upd_changed cs run_dt eps hdf hch] at hr
      simp only [Option.some.injEq] at hr
      exact ⟨hr.symm, fun e he => maxGiornata_ge he, maxGiornata_mem hdf⟩
    · have hch2 := not_ne_iff.mp hch
      by_cases hnw : cs.filter (isNew df) ≠ []
      · rw [upd_newonly cs run_dt eps hdf hch2 hnw] at hr
        cases hr
      · have hnw2 := not_ne_iff.mp hnw
        rw [upd_nochange cs run_dt eps hdf hch2 hnw2] at hr
        cases hr

/-- Witness for C1 at a concrete input: a one-row ledger and a snapshot
whose only team changed score, so a new round 2 = 1 + 1 is created. -/
theorem C1_round_monotonicity_witness :
    ([⟨1, 3, "A", "a", 10⟩] : List Entry) ≠ [] ∧
    2 = maxGiornata [⟨1, 3, "A", "a", 10⟩] + 1 ∧
    (∀ e ∈ ([⟨1, 3, "A", "a", 10⟩] : List Entry), e.giornata ≤ maxGiornata [⟨1, 3, "A", "a", 10⟩]) ∧
    maxGiornata [⟨1, 3, "A", "a", 10⟩] ∈
      ([⟨1, 3, "A", "a", 10⟩] : List Entry).map (fun e => e.giornata) := by
  have hdf : ([⟨1, 3, "A", "a", 10⟩] : List Entry) ≠ [] := by decide
  have hl : lastE [⟨1, 3, "A", "a", 10⟩] ("a") = some ⟨1, 3, "A", "a", 10⟩ := by decide
  have hch : isChanged [⟨1, 3, "A", "a", 10⟩] float_eps (("a" : String), ⟨"A", 25⟩) = true := by
    unfold isChanged
    dsimp only
    rw [hl]
    rw [decide_eq_true_eq]
    norm_num [float_eps]
  have hfil : ([(("a" : String), (⟨"A", 25⟩ : TS))]).filter
      (isChanged [⟨1, 3, "A", "a", 10⟩] float_eps) = [(("a" : String), (⟨"A", 25⟩ : TS))] := by
    simp [List.filter_cons, hch]
  have hne : ([(("a" : String), (⟨"A", 25⟩ : TS))]).filter
      (isChanged [⟨1, 3, "A", "a", 10⟩] float_eps) ≠ [] := by
    rw [hfil]
    exact List.cons_ne_nil _ _
  have hmax : maxGiornata [⟨1, 3, "A", "a", 10⟩] = 1 := by decide
  have hr : (update_storico [⟨1, 3, "A", "a", 10⟩] [(("a" : String), ⟨"A", 25⟩)] 7 float_eps).2.1 =
      some 2 := by
    rw [upd_changed _ _ _ hdf hne]
    dsimp only
    rw [hmax]
  exact ⟨hdf,
    (C1_round_monotonicity [⟨1, 3, "A", "a", 10⟩] [(("a" : String), ⟨"A", 25⟩)] 7 float_eps).2
      hdf 2 hr⟩

/-- C4: Append-only.  The output ledger of every reconciliation call is
the input ledger followed by some (possibly empty) list of new rows, so
every input entry is still present, with all fields unchanged, in the
output. -/
theorem C4_append_only (df : List Entry) (cs : List (String × TS)) (run_dt : ℕ) (eps : ℚ) :
    (∃ t, (update_storico df cs run_dt eps).1 = df ++ t) ∧
    ∀ e ∈ df, e ∈ (update_storico df cs run_dt eps).1 := by
  have hex : ∃ t, (update_storico df cs run_dt eps).1 = df ++ t := by
    by_cases hdf : df = []
    · subst hdf
      rw [upd_empty]
      exact ⟨cs.map (mkRow 1 run_dt), rfl⟩
    · by_cases hch : cs.filter (isChanged df eps) ≠ []
      · rw [upd_changed cs run_dt eps hdf hch]
        exact ⟨_, rfl⟩
      · have hch2 := not_ne_iff.mp hch
        by_cases hnw : cs.filter (isNew df) ≠ []
        · rw [upd_newonly cs run_dt eps hdf hch2 hnw]
          exact ⟨_, rfl⟩
        · have hnw2 := not_ne_iff.mp hnw
          rw [upd_nochange cs run_dt eps hdf hch2 hnw2]
          exact ⟨[], by simp⟩
  refine ⟨hex, ?_⟩
  obtain ⟨t, ht⟩ := hex
  intro e he
  rw [ht]
  exact List.mem_append_left t he

/-- Witness for C4 at a concrete input: the single input row is still in
the output ledger of a no-change reconciliation. -/
theorem C4_append_only_witness :
    (⟨1, 0, "b", "b", 20⟩ : Entry) ∈ ([⟨1, 0, "b", "b", 20⟩] : List Entry) ∧
    (⟨1, 0, "b", "b", 20⟩ : Entry) ∈ (update_storico [⟨1, 0, "b", "b", 20⟩] [] 5 float_eps).1 :=
  ⟨by decide, (C4_append_only [⟨1, 0, "b", "b", 20⟩] [] 5 float_eps).2 _ (by decide)⟩

/-- C5 counterexample: on a non-empty ledger with an empty snapshot the
returned stats are NOT all zero — the `no_change` flag is set to 1, so
the claim "ledger unchanged and all stats counters zero" fails at this
concrete input. -/
theorem C5_counterexample :
    ¬ ((update_storico [⟨1, 0, "a", "a", 10⟩] [] 0 float_eps).1 = [⟨1, 0, "a", "a", 10⟩] ∧
       (update_storico [⟨1, 0, "a", "a", 10⟩] [] 0 float_eps).2.2 = ⟨0, 0, 0, 0⟩) := by
  decide

/-- C5 as amended: with an empty snapshot the ledger is returned
unchanged and the three add/skip counters are zero, but the `no_change`
flag is 1 when the ledger is non-empty (0 only on an empty ledger,
which takes the round-1 branch). -/
theorem C5_empty_snapshot (df : List Entry) (run_dt : ℕ) (eps : ℚ) :
    (update_storico df [] run_dt eps).1 = df ∧
    (update_storico df [] run_dt eps).2.2 = ⟨0, 0, 0, if df = [] then 0 else 1⟩ := by
  by_cases hdf : df = []
  · subst hdf
    rw [upd_empty]
    simp
  · have hch : ([] : List (String × TS)).filter (isChanged df eps) = [] := rfl
    have hnw : ([] : List (String × TS)).filter (isNew df) = [] := rfl
    rw [upd_nochange [] run_dt eps hdf hch hnw]
    simp [hdf]

/-- C10: the defensive duplicate-key filter removes no candidate row on
a non-empty ledger: changed rows carry round `maxGiornata df + 1`,
larger than every round present, and backfilled rows carry a key absent
from the whole ledger; hence the reconciler equals the variant with the
filter removed. -/
theorem C10_filter_redundant (df : List Entry) (cs : List (String × TS)) (run_dt : ℕ) (eps : ℚ)
    (hdf : df ≠ []) :
    update_storico df cs run_dt eps = update_storico_nofilter df cs run_dt eps := by
  have hkeep : ∀ rows : List Entry,
      (∀ r ∈ rows, existsKey df r.giornata r.squadra_norm = false) →
      rows.filter (fun r => !(existsKey df r.giornata r.squadra_norm)) = rows := by
    intro rows h
    apply List.filter_eq_self.mpr
    intro a ha
    rw [h a ha]
    rfl
  have hchangedRows : ∀ r ∈ (cs.filter (isChanged df eps)).map (mkRow (maxGiornata df + 1) run_dt),
      existsKey df r.giornata r.squadra_norm = false := by
    intro r hr
    obtain ⟨p, _, hpr⟩ := List.mem_map.mp hr
    subst hpr
    apply existsKey_false_iff.mpr
    intro e he hcon
    have hle := maxGiornata_ge he
    have h1 : e.giornata = maxGiornata df + 1 := hcon.1
    omega
  have hnewRows : ∀ r ∈ (cs.filter (isNew df)).map
      (mkRow (maxGiornata df) (compute_prev_giornata_date df (maxGiornata df) run_dt)),
      existsKey df r.giornata r.squadra_norm = false := by
    intro r hr
    obtain ⟨p, hp, hpr⟩ := List.mem_map.mp hr
    subst hpr
    apply existsKey_false_iff.mpr
    intro e he hcon
    have hnew : isNew df p = true := (List.mem_filter.mp hp).2
    have hnone : lastE df p.1 = none := Option.isNone_iff_eq_none.mp hnew
    exact (lastE_eq_none_iff.mp hnone) e he hcon.2
  by_cases hch : cs.filter (isChanged df eps) ≠ []
  · rw [upd_changed cs run_dt eps hdf hch, updnf_changed cs run_dt eps hdf hch]
    rw [hkeep _ ?_]
    intro r hr
    rcases List.mem_append.mp hr with h | h
    · exact hchangedRows r h
    · exact hnewRows r h
  · have hch2 := not_ne_iff.mp hch
    by_cases hnw : cs.filter (isNew df) ≠ []
    · rw [upd_newonly cs run_dt eps hdf hch2 hnw, updnf_newonly cs run_dt eps hdf hch2 hnw]
      rw [hkeep _ hnewRows]
    · have hnw2 := not_ne_iff.mp hnw
      rw [upd_nochange cs run_dt eps hdf hch2 hnw2, updnf_nochange cs run_dt eps hdf hch2 hnw2]

/-- The `(giornata, squadra_norm)` keys of a ledger prefix stay
duplicate-free after appending rows that survive the duplicate filter,
provided the appended rows are duplicate-free among themselves. -/
lemma nodup_append_filtered (df : List Entry) (rows : List Entry)
    (hdf : (df.map (fun e => (e.giornata, e.squadra_norm))).Nodup)
    (hrows : (rows.map (fun e => (e.giornata, e.squadra_norm))).Nodup) :
    (((df ++ rows.filter (fun r => !(existsKey df r.giornata r.squadra_norm))).map
        (fun e => (e.giornata, e.squadra_norm))).Nodup) := by
  rw [List.map_append]
  apply List.nodup_append.mpr
  refine ⟨hdf, ?_, ?_⟩
  · exact List.Sublist.nodup (List.Sublist.map _ (List.filter_sublist _)) hrows
  · intro k hk1 hk2
    obtain ⟨r, hrfil, hkr⟩ := List.mem_map.mp hk2
    have hpass : (!(existsKey df r.giornata r.squadra_norm)) = true := (List.mem_filter.mp hrfil).2
    have hfalse : existsKey df r.giornata r.squadra_norm = false := by simpa using hpass
    obtain ⟨e, he, hke⟩ := List.mem_map.mp hk1
    have heq := hke.trans hkr.symm
    exact (existsKey_false_iff.mp hfalse) e he
      ⟨congrArg Prod.fst heq, congrArg Prod.snd heq⟩

/-- C2: No duplicate `(round, team_key)` pairs.  If the input ledger has
pairwise-distinct `(giornata, squadra_norm)` keys (and the snapshot, a
Python dict, has distinct keys), the output ledger of any
reconciliation also has pairwise-distinct `(giornata, squadra_norm)`
keys. -/
theorem C2_no_duplicate_keys (df : List Entry) (cs : List (String × TS)) (run_dt : ℕ) (eps : ℚ)
    (hdf : (df.map (fun e => (e.giornata, e.squadra_norm))).Nodup)
    (hcs : (cs.map Prod.fst).Nodup) :
    ((update_storico df cs run_dt eps).1.map (fun e => (e.giornata, e.squadra_norm))).Nodup := by
  have hinj : ∀ g : ℕ, Function.Injective (fun n : String => (g, n)) := by
    intro g a b h
    exact ((Prod.mk.injEq g a g b).mp h).2
  have hkeys : ∀ (g dt : ℕ) (q : (String × TS) → Bool),
      ((cs.filter q).map (mkRow g dt)).map (fun e => (e.giornata, e.squadra_norm)) =
        ((cs.filter q).map Prod.fst).map (fun n => (g, n)) := by
    intro g dt q
    rw [List.map_map, List.map_map]
    rfl
  have hnodupRows : ∀ (g dt : ℕ) (q : (String × TS) → Bool),
      (((cs.filter q).map (mkRow g dt)).map (fun e => (e.giornata, e.squadra_norm))).Nodup := by
    intro g dt q
    rw [hkeys]
    exact List.Nodup.map (hinj g)
      (List.Sublist.nodup (List.Sublist.map Prod.fst (List.filter_sublist _)) hcs)
  by_cases hdfe : df = []
  · subst hdfe
    rw [upd_empty]
    have hmm : ((cs.map (mkRow 1 run_dt)).map (fun e => (e.giornata, e.squadra_norm))) =
        (cs.map Prod.fst).map (fun n => (1, n)) := by
      rw [List.map_map, List.map_map]
      rfl
    rw [hmm]
    exact List.Nodup.map (hinj 1) hcs
  · by_cases hch : cs.filter (isChanged df eps) ≠ []
    · rw [upd_changed cs run_dt eps hdfe hch]
      apply nodup_append_filtered df _ hdf
      rw [List.map_append]
      apply List.nodup_append.mpr
      refine ⟨hnodupRows _ _ _, hnodupRows _ _ _, ?_⟩
      intro k hkA hkB
      rw [hkeys] at hkA hkB
      obtain ⟨n1, _, hk1⟩ := List.mem_map.mp hkA
      obtain ⟨n2, _, hk2⟩ := List.mem_map.mp hkB
      have e1 : k.1 = maxGiornata df + 1 := by rw [← hk1]
      have e2 : k.1 = maxGiornata df := by rw [← hk2]
      omega
    · have hch2 := not_ne_iff.mp hch
      by_cases hnw : cs.filter (isNew df) ≠ []
      · rw [upd_newonly cs run_dt eps hdfe hch2 hnw]
        exact nodup_append_filtered df _ hdf (hnodupRows _ _ _)
      · have hnw2 := not_ne_iff.mp hnw
        rw [upd_nochange cs run_dt eps hdfe hch2 hnw2]
        exact hdf

/-- C3: Backfill targets the previous round.  In a round-creating
reconciliation (non-empty ledger, non-empty changed set), every team
classified as new (its key occurs nowhere in the ledger) is appended as
a fresh row whose round is the previous maximum round (not the new
round), whose score is the snapshot score, and whose `recorded_at` is
the latest `recorded_at` among the rows of that previous round, falling
back to the run timestamp when that round has no timestamp. -/
theorem C3_backfill_previous_round (df : List Entry) (cs : List (String × TS)) (run_dt : ℕ)
    (eps : ℚ) (hdf : df ≠ []) (hch : cs.filter (isChanged df eps) ≠ [])
    (p : String × TS) (hp : p ∈ cs.filter (isNew df)) :
    ∃ e : Entry,
      e ∈ (update_storico df cs run_dt eps).1 ∧ e ∉ df ∧
      e.giornata = maxGiornata df ∧ (∀ x ∈ df, x.giornata ≤ maxGiornata df) ∧
      e.squadra = p.2.squadra ∧ e.squadra_norm = p.1 ∧ e.punteggio_totale = p.2.punti ∧
      ((df.filter (fun x => x.giornata = maxGiornata df)).map (fun x => x.data_download) = [] →
        e.data_download = run_dt) ∧
      ((df.filter (fun x => x.giornata = maxGiornata df)).map (fun x => x.data_download) ≠ [] →
        e.data_download ∈
            (df.filter (fun x => x.giornata = maxGiornata df)).map (fun x => x.data_download) ∧
          ∀ d ∈ (df.filter (fun x => x.giornata = maxGiornata df)).map (fun x => x.data_download),
            d ≤ e.data_download) := by
  have hnew : isNew df p = true := (List.mem_filter.mp hp).2
  have hnone : lastE df p.1 = none := Option.isNone_iff_eq_none.mp hnew
  refine ⟨mkRow (maxGiornata df) (compute_prev_giornata_date df (maxGiornata df) run_dt) p,
    ?_, ?_, rfl, fun x hx => maxGiornata_ge hx, rfl, rfl, rfl, ?_, ?_⟩
  · rw [upd_changed cs run_dt eps hdf hch]
    apply List.mem_append_right
    apply List.mem_filter.mpr
    constructor
    · exact List.mem_append_right _ (List.mem_map_of_mem _ hp)
    · have hfalse : existsKey df (maxGiornata df) p.1 = false := by
        apply existsKey_false_iff.mpr
        intro x hx hcon
        exact (lastE_eq_none_iff.mp hnone) x hx hcon.2
      simp [mkRow, hfalse]
  · intro hmem
    exact (lastE_eq_none_iff.mp hnone) _ hmem rfl
  · intro hnil
    exact cpd_eq_fallback hnil
  · intro hne
    exact cpd_spec hne

/-- Witness for C3 at a concrete input: ledger with team `a` at round 1,
snapshot where `a` changed (round 2 is created) and `c` is brand new:
`c` is backfilled at round 1. -/
theorem C3_backfill_previous_round_witness :
    (([⟨1, 3, "A", "a", 10⟩] : List Entry) ≠ []) ∧
    (([(("a" : String), ⟨"A", 25⟩), (("c" : String), ⟨"C", 5⟩)] : List (String × TS)).filter
        (isChanged [⟨1, 3, "A", "a", 10⟩] float_eps) ≠ []) ∧
    ((("c" : String), (⟨"C", 5⟩ : TS)) ∈
      ([(("a" : String), ⟨"A", 25⟩), (("c" : String), ⟨"C", 5⟩)] : List (String × TS)).filter
        (isNew [⟨1, 3, "A", "a", 10⟩])) ∧
    ∃ e : Entry,
      e ∈ (update_storico [⟨1, 3, "A", "a", 10⟩]
          [(("a" : String), ⟨"A", 25⟩), (("c" : String), ⟨"C", 5⟩)] 7 float_eps).1 ∧
      e.giornata = maxGiornata [⟨1, 3, "A", "a", 10⟩] ∧ e.squadra_norm = "c" := by
  have hdf : ([⟨1, 3, "A", "a", 10⟩] : List Entry) ≠ [] := by decide
  have hl : lastE [⟨1, 3, "A", "a", 10⟩] ("a") = some ⟨1, 3, "A", "a", 10⟩ := by decide
  have hcha : isChanged [⟨1, 3, "A", "a", 10⟩] float_eps (("a" : String), ⟨"A", 25⟩) = true := by
    unfold isChanged
    dsimp only
    rw [hl]
    rw [decide_eq_true_eq]
    norm_num [float_eps]
  have hchc : isChanged [⟨1, 3, "A", "a", 10⟩] float_eps (("c" : String), ⟨"C", 5⟩) = false := by
    decide
  have hfil : ([(("a" : String), ⟨"A", 25⟩), (("c" : String), ⟨"C", 5⟩)] :
      List (String × TS)).filter (isChanged [⟨1, 3, "A", "a", 10⟩] float_eps) =
      [(("a" : String), ⟨"A", 25⟩)] := by
    simp [List.filter_cons, hcha, hchc]
  have hne : ([(("a" : String), ⟨"A", 25⟩), (("c" : String), ⟨"C", 5⟩)] :
      List (String × TS)).filter (isChanged [⟨1, 3, "A", "a", 10⟩] float_eps) ≠ [] := by
    rw [hfil]
    exact List.cons_ne_nil _ _
  have hp : (("c" : String), (⟨"C", 5⟩ : TS)) ∈
      ([(("a" : String), ⟨"A", 25⟩), (("c" : String), ⟨"C", 5⟩)] : List (String × TS)).filter
        (isNew [⟨1, 3, "A", "a", 10⟩]) := by decide
  obtain ⟨e, he, _, hg, _, _, hnorm, _, _, _⟩ :=
    C3_backfill_previous_round [⟨1, 3, "A", "a", 10⟩]
      [(("a" : String), ⟨"A", 25⟩), (("c" : String), ⟨"C", 5⟩)] 7 float_eps hdf hne
      (("c" : String), ⟨"C", 5⟩) hp
  exact ⟨hdf, hne, hp, e, he, hg, hnorm⟩

/-- Witness for C2 at a concrete input. -/
theorem C2_no_duplicate_keys_witness :
    (([⟨1, 0, "a", "a", 10⟩, ⟨2, 1, "a", "a", 12⟩] : List Entry).map
        (fun e => (e.giornata, e.squadra_norm))).Nodup ∧
    (([] : List (String × TS)).map Prod.fst).Nodup ∧
    ((update_storico [⟨1, 0, "a", "a", 10⟩, ⟨2, 1, "a", "a", 12⟩] [] 4 float_eps).1.map
        (fun e => (e.giornata, e.squadra_norm))).Nodup :=
  ⟨by decide, by decide,
    C2_no_duplicate_keys [⟨1, 0, "a", "a", 10⟩, ⟨2, 1, "a", "a", 12⟩] [] 4 float_eps
      (by decide) (by decide)⟩

/-- C6 counterexample: the reduced mapping is NOT the same for every
ordering of the same multiset of observations.  Two observations with
equal scores and display names "A" and " a" normalize to the same key;
whichever comes first wins the tie, so the two orderings keep different
display names for key "a". -/
theorem C6_counterexample :
    ([⟨"A", 1⟩, ⟨" a", 1⟩] : List Obs).Perm ([⟨" a", 1⟩, ⟨"A", 1⟩] : List Obs) ∧
    lookupA ("a") (collect_current_scores [⟨"A", 1⟩, ⟨" a", 1⟩]) ≠
      lookupA ("a") (collect_current_scores [⟨" a", 1⟩, ⟨"A", 1⟩]) :=
  ⟨List.Perm.swap _ _ _, by decide⟩

/-- C6 as amended: reducing any two orderings of the same multiset of
observations yields the same key set and the same score per key (the
kept display name may differ between orderings when duplicate
observations tie on score). -/
theorem C6_reduction_score_order_independent (l₁ l₂ : List Obs) (h : l₁.Perm l₂) (k : String) :
    (lookupA k (collect_current_scores l₁)).map (fun v => v.punti) =
      (lookupA k (collect_current_scores l₂)).map (fun v => v.punti) := by
  rw [collect_current_scores, collect_current_scores, lookup_foldl_insertScore,
    lookup_foldl_insertScore, scoresMax_perm h k]

/-- Witness for C6 (amended) at a concrete input. -/
theorem C6_reduction_score_order_independent_witness :
    ([⟨"X", 3⟩, ⟨"Y", 4⟩] : List Obs).Perm ([⟨"Y", 4⟩, ⟨"X", 3⟩] : List Obs) ∧
    (lookupA ("x") (collect_current_scores [⟨"X", 3⟩, ⟨"Y", 4⟩])).map (fun v => v.punti) =
      (lookupA ("x") (collect_current_scores [⟨"Y", 4⟩, ⟨"X", 3⟩])).map (fun v => v.punti) :=
  ⟨List.Perm.swap _ _ _,
    C6_reduction_score_order_independent _ _ (List.Perm.swap _ _ _) ("x")⟩

/-- C7 counterexample: `.` is NOT removed only when the string is in the
Italian locale format — the removal is unconditional.  On "3.5", which
carries no thousands formatting, the claim's reading yields 3.5 = 7/2,
but the parser strips the dot and returns 35. -/
theorem C7_counterexample :
    parse_italian_number ("3.5") = some 35 ∧ some ((35 : ℚ)) ≠ some ((7 : ℚ) / 2) := by
  constructor
  · have h1 : parse_italian_number ("3.5") = pyFloatOfChars ['3', '5'] := rfl
    have h2 : pyFloatOfChars ['3', '5'] = some ((1 : ℚ) * ((35 : ℕ) : ℚ)) := rfl
    rw [h1, h2]
    norm_num
  · norm_num

/-- C7 as amended: the parser unconditionally deletes every `.` and then
turns every `,` into a decimal point.  Thus "1.234,56" parses to
1234.56 and "12,5" to 12.5, but "3.5" parses to 35 (and "1.234" to
1234), the dot being removed even without locale formatting. -/
theorem C7_parser_amended :
    parse_italian_number ("1.234,56") = some ((123456 : ℚ) / 100) ∧
    parse_italian_number ("1.234") = some ((1234 : ℚ)) ∧
    parse_italian_number ("3.5") = some ((35 : ℚ)) ∧
    parse_italian_number ("12,5") = some ((25 : ℚ) / 2) := by
  refine ⟨?_, ?_, ?_, ?_⟩
  · have h1 : parse_italian_number ("1.234,56") =
        pyFloatOfChars ['1', '2', '3', '4', '.', '5', '6'] := rfl
    have h2 : pyFloatOfChars ['1', '2', '3', '4', '.', '5', '6'] =
        some ((1 : ℚ) * (((1234 : ℕ) : ℚ) + ((56 : ℕ) : ℚ) / 10 ^ 2)) := rfl
    rw [h1, h2]
    norm_num
  · have h1 : parse_italian_number ("1.234") = pyFloatOfChars ['1', '2', '3', '4'] := rfl
    have h2 : pyFloatOfChars ['1', '2', '3', '4'] = some ((1 : ℚ) * ((1234 : ℕ) : ℚ)) := rfl
    rw [h1, h2]
    norm_num
  · have h1 : parse_italian_number ("3.5") = pyFloatOfChars ['3', '5'] := rfl
    have h2 : pyFloatOfChars ['3', '5'] = some ((1 : ℚ) * ((35 : ℕ) : ℚ)) := rfl
    rw [h1, h2]
    norm_num
  · have h1 : parse_italian_number ("12,5") = pyFloatOfChars ['1', '2', '.', '5'] := rfl
    have h2 : pyFloatOfChars ['1', '2', '.', '5'] =
        some ((1 : ℚ) * (((12 : ℕ) : ℚ) + ((5 : ℕ) : ℚ) / 10 ^ 1)) := rfl
    rw [h1, h2]
    norm_num

/-- C9: Round-delta view.  The output of `build_punteggi_giornata` is
empty on an empty ledger; it has exactly one row per ledger entry that
is not its team's first entry (length = entries − teams); as a multiset
it consists, for each team, of the consecutive differences of that
team's entries ordered by round ascending (the spec-side
`spec_team_delta_rows`); and it is ordered by round ascending, then by
`punteggio_giornata` descending within a round (`gRowRel`). -/
theorem C9_round_delta_view (df : List Entry) :
    (df = [] → build_punteggi_giornata df = []) ∧
    (build_punteggi_giornata df).length + ((df.map (fun e => e.squadra_norm)).dedup).length =
      df.length ∧
    (build_punteggi_giornata df).Perm
      (((df.map (fun e => e.squadra_norm)).dedup).flatMap (spec_team_delta_rows df)) ∧
    (build_punteggi_giornata df).Pairwise gRowRel := by
  by_cases hdf : df = []
  · subst hdf
    refine ⟨fun _ => rfl, by simp [build_punteggi_giornata], ?_, ?_⟩
    · simp [build_punteggi_giornata]
    · simp [build_punteggi_giornata]
  · have hb : build_punteggi_giornata df =
        List.insertionSort gRowRel
          ((sortedNorms df).flatMap (fun n => deltasOf (teamEntries df n))) := by
      unfold build_punteggi_giornata
      rw [if_neg hdf]
    refine ⟨fun h => absurd h hdf, ?_, ?_, ?_⟩
    · rw [hb, List.length_insertionSort, List.length_flatMap]
      have hmapeq : (sortedNorms df).map (List.length ∘ fun n => deltasOf (teamEntries df n)) =
          (sortedNorms df).map (fun n => (df.filter (fun e => e.squadra_norm = n)).length - 1) := by
        apply List.map_congr_left
        intro n _
        show (deltasOf (teamEntries df n)).length = _
        rw [deltasOf_length, teamEntries, List.length_insertionSort]
      rw [hmapeq]
      have h1le : ∀ x ∈ (sortedNorms df).map
          (fun n => (df.filter (fun e => e.squadra_norm = n)).length), 1 ≤ x := by
        intro x hx
        obtain ⟨n, hn, hxn⟩ := List.mem_map.mp hx
        obtain ⟨e, he, hen⟩ := List.mem_map.mp (mem_sortedNorms.mp hn)
        have hmem : e ∈ df.filter (fun e => e.squadra_norm = n) :=
          List.mem_filter.mpr ⟨he, by simpa using hen⟩
        have hpos : 0 < (df.filter (fun e => e.squadra_norm = n)).length :=
          List.length_pos.mpr (fun hnil => by rw [hnil] at hmem; cases hmem)
        omega
      have hsum1 := sum_map_sub_one
        ((sortedNorms df).map (fun n => (df.filter (fun e => e.squadra_norm = n)).length)) h1le
      rw [List.map_map, List.length_map] at hsum1
      have hcomp : (sortedNorms df).map
            ((fun x => x - 1) ∘ fun n => (df.filter (fun e => e.squadra_norm = n)).length) =
          (sortedNorms df).map
            (fun n => (df.filter (fun e => e.squadra_norm = n)).length - 1) :=
        List.map_congr_left (fun n _ => rfl)
      rw [hcomp] at hsum1
      have hsum2 : ((sortedNorms df).map
          (fun n => (df.filter (fun e => e.squadra_norm = n)).length)).sum = df.length := by
        rw [((sortedNorms_perm df).map
          (fun n => (df.filter (fun e => e.squadra_norm = n)).length)).sum_eq]
        exact length_eq_sum_team_lengths df
      have hnorms_len : (sortedNorms df).length =
          ((df.map (fun e => e.squadra_norm)).dedup).length := (sortedNorms_perm df).length_eq
      omega
    · rw [hb]
      have h2 : (sortedNorms df).flatMap (fun n => deltasOf (teamEntries df n)) =
          (sortedNorms df).flatMap (spec_team_delta_rows df) := by
        apply flatMap_congr
        intro n _
        rw [spec_team_delta_rows]
        exact deltasOf_eq_zip _
      rw [h2]
      exact (List.perm_insertionSort gRowRel _).trans
        (perm_flatMap_of_perm (spec_team_delta_rows df) (sortedNorms_perm df))
    · rw [hb]
      exact List.sorted_insertionSort gRowRel _

/-- Witness for C9: the empty-ledger branch evaluated. -/
theorem C9_round_delta_view_witness : build_punteggi_giornata [] = [] :=
  (C9_round_delta_view []).1 rfl

/-- C8 counterexample: score ties are NOT kept in the original relative
order of the equal-score rows.  With teams `a` and `b` tied at score
10, the one-row-per-team frame lists `a` before `b` (ascending key
order), but the descending sort of line 309 — an ascending argsort
reversed by pandas for `ascending=False` — emits `b` before `a`: the
standings rows of score 10 are the reversal of the frame's order. -/
theorem C8_counterexample :
    ¬ (((build_ultima_classifica [⟨1, 0, "A", "a", 10⟩, ⟨1, 1, "B", "b", 10⟩]).filter
        (fun r => r.punteggio_totale = 10)).map rowData =
      ((last_per_team [⟨1, 0, "A", "a", 10⟩, ⟨1, 1, "B", "b", 10⟩]).filter
        (fun e => e.punteggio_totale = 10)).map entryData) := by
  have hab : ("a" : String) ≤ "b" := le_of_lt (String.lt_iff_toList_lt.mpr (by decide))
  have hd : (([⟨1, 0, "A", "a", 10⟩, ⟨1, 1, "B", "b", 10⟩] : List Entry).map
      (fun e => e.squadra_norm)).dedup = ["a", "b"] := by decide
  have hsn : sortedNorms [⟨1, 0, "A", "a", 10⟩, ⟨1, 1, "B", "b", 10⟩] = ["a", "b"] := by
    rw [sortedNorms, hd]
    simp only [List.insertionSort, List.orderedInsert]
    rw [if_pos hab]
  have hlpt : last_per_team [⟨1, 0, "A", "a", 10⟩, ⟨1, 1, "B", "b", 10⟩] =
      [⟨1, 0, "A", "a", 10⟩, ⟨1, 1, "B", "b", 10⟩] := by
    rw [last_per_team, hsn]
    decide
  have hbuild : build_ultima_classifica [⟨1, 0, "A", "a", 10⟩, ⟨1, 1, "B", "b", 10⟩] =
      (((List.insertionSort scoreAscRel
        [(⟨1, 0, "A", "a", 10⟩ : Entry), ⟨1, 1, "B", "b", 10⟩]).reverse).enum).map mkClasRow := by
    unfold build_ultima_classifica
    rw [if_neg (by decide), hlpt]
  rw [hbuild, hlpt]
  decide

/-- C8 as amended: `build_ultima_classifica` yields the empty list on
the empty ledger; `posizione` is the 1-based rank; there is exactly one
row per distinct team key (as a multiset, the rows are the projections
of each key's max-round entry `lastE`); rows are sorted by
`punteggio_totale` descending; and score ties appear in the REVERSE of
their relative order in the one-row-per-team frame `last_per_team`
(pandas reverses the stable ascending argsort for `ascending=False`).
Finally, `lastE` indeed returns the team's entry with maximal round. -/
theorem C8_standings_view (df : List Entry) :
    (df = [] → build_ultima_classifica df = []) ∧
    (build_ultima_classifica df).map (fun r => r.posizione) =
      List.range' 1 (build_ultima_classifica df).length ∧
    (build_ultima_classifica df).length = ((df.map (fun e => e.squadra_norm)).dedup).length ∧
    ((build_ultima_classifica df).map rowData).Perm
      (((df.map (fun e => e.squadra_norm)).dedup).filterMap
        (fun n => (lastE df n).map entryData)) ∧
    (build_ultima_classifica df).Pairwise
      (fun a b => b.punteggio_totale ≤ a.punteggio_totale) ∧
    (∀ v : ℚ, ((build_ultima_classifica df).filter
        (fun r => r.punteggio_totale = v)).map rowData =
      (((last_per_team df).filter (fun e => e.punteggio_totale = v)).reverse).map entryData) ∧
    (∀ n e, lastE df n = some e → e ∈ df ∧ e.squadra_norm = n ∧
      ∀ x ∈ df, x.squadra_norm = n → x.giornata ≤ e.giornata) := by
  by_cases hdf : df = []
  · subst hdf
    refine ⟨fun _ => rfl, rfl, rfl, List.Perm.refl _, List.Pairwise.nil, fun v => rfl, ?_⟩
    intro n e h
    simp [lastE] at h
  · have hb : build_ultima_classifica df =
        (((List.insertionSort scoreAscRel (last_per_team df)).reverse).enum).map mkClasRow := by
      unfold build_ultima_classifica
      rw [if_neg hdf]
    have henum : ((List.insertionSort scoreAscRel (last_per_team df)).reverse).enum =
        List.enumFrom 0 ((List.insertionSort scoreAscRel (last_per_team df)).reverse) := rfl
    have hlenb : (build_ultima_classifica df).length =
        ((List.insertionSort scoreAscRel (last_per_team df)).reverse).length := by
      rw [hb, List.length_map, henum, List.enumFrom_length]
    have hsort := List.sorted_insertionSort scoreAscRel (last_per_team df)
    have hsperm := List.perm_insertionSort scoreAscRel (last_per_team df)
    refine ⟨fun h => absurd h hdf, ?_, ?_, ?_, ?_, ?_, ?_⟩
    · rw [hlenb, hb, henum]
      simpa using mkrows_map_pos ((List.insertionSort scoreAscRel (last_per_team df)).reverse) 0
    · rw [hlenb, List.length_reverse, List.length_insertionSort, last_per_team_length]
    · rw [hb, henum, mkrows_map_rowData _ 0]
      exact (((List.reverse_perm _).map entryData).trans (hsperm.map entryData)).trans
        (last_per_team_map_perm df)
    · rw [hb, henum]
      exact List.Pairwise.map mkClasRow (fun p q h => h)
        (pairwise_enumFrom (List.pairwise_reverse.mpr hsort) 0)
    · intro v
      rw [hb, henum, mkrows_filter _ v 0, List.filter_reverse]
      rw [filter_insertionSort_of_tied scoreAscRel (fun e => e.punteggio_totale = v) ?_
        (last_per_team df)]
      intro a b ha hbv
      have ha2 : a.punteggio_totale = v := of_decide_eq_true ha
      have hb2 : b.punteggio_totale = v := of_decide_eq_true hbv
      rw [scoreAscRel, ha2, hb2]
    · intro n e h
      exact lastE_spec h

/-- Witness for C8 (amended): the empty-ledger branch evaluated. -/
theorem C8_standings_view_witness : build_ultima_classifica [] = [] :=
  (C8_standings_view []).1 rfl

/-- Witness for C10 at a concrete input. -/
theorem C10_filter_redundant_witness :
    ([⟨2, 9, "c", "c", 7⟩] : List Entry) ≠ [] ∧
    update_storico [⟨2, 9, "c", "c", 7⟩] [] 1 float_eps =
      update_storico_nofilter [⟨2, 9, "c", "c", 7⟩] [] 1 float_eps :=
  ⟨by decide, C10_filter_redundant _ _ _ _ (by decide)⟩

end Fantacalcio
